import Mathlib

/-!
Verification of the computational core of the "Constant Driver" application
(`src/utils/date.ts`, `src/App.tsx`, `src/types.ts`).

The embedding models JavaScript values as follows:
* a JS `Date` / timestamp is its instant, an `Int` of milliseconds since the
  Unix epoch; an invalid date (`NaN` timestamp) is `Option.none`;
* the host timezone is a fixed UTC offset `tz : Int` in milliseconds
  (local time = UTC instant + tz), which is how every `Date` local-field
  getter or constructor consumes it;
* JS strings are `List Char`; JS numbers used for money/consumption are `ℚ`.

The calendar arithmetic (`daysFromCivil` / `civilFromDays`) implements the
proleptic-Gregorian day<->date conversion that backs the ECMAScript Date
abstract operations (MakeDay, YearFromTime, MonthFromTime, DateFromTime),
using Howard Hinnant's era-based formulas with mathematically defined
floor division.
-/

namespace ConstantDriver

/-! ## Calendar core: proleptic Gregorian day number <-> civil date -/

/-- Day number (days since 1970-01-01) of a civil date.  The month is 1-based;
out-of-range day values are accepted and normalised linearly, exactly like the
ECMAScript `MakeDay` operation. -/
def daysFromCivil (y m d : Int) : Int :=
  let y' := y - (if m ≤ 2 then 1 else 0)
  let era := y' / 400
  let yoe := y' - era * 400
  let mp := if 2 < m then m - 3 else m + 9
  let doy := (153 * mp + 2) / 5 + d - 1
  let doe := yoe * 365 + yoe / 4 - yoe / 100 + doy
  era * 146097 + doe - 719468

/-- Era (400-year block) of a day number, for the decode direction. -/
def eraOf (z : Int) : Int := (z + 719468) / 146097

/-- Day-of-era (0..146096) of a day number. -/
def doeOf (z : Int) : Int := (z + 719468) - eraOf z * 146097

/-- Year-of-era (0..399) extracted from a day-of-era. -/
def yoeOf (doe : Int) : Int :=
  (doe - doe / 1460 + doe / 36524 - doe / 146096) / 365

/-- Day-of-era on which a year-of-era starts. -/
def doeStart (yoe : Int) : Int := 365 * yoe + yoe / 4 - yoe / 100

/-- Day-of-year (0-based, March-first year) extracted from a day-of-era. -/
def doyOf (doe : Int) : Int := doe - doeStart (yoeOf doe)

/-- March-based month index (0 = March .. 11 = February) of a day-of-year. -/
def mpOf (doy : Int) : Int := (5 * doy + 2) / 153

/-- Civil month (1..12) from the March-based month index. -/
def monthOf (mp : Int) : Int := mp + (if mp < 10 then 3 else -9)

/-- Civil date `(year, month, day)` (month 1-based) of a day number. -/
def civilFromDays (z : Int) : Int × Int × Int :=
  let era := eraOf z
  let doe := doeOf z
  let yoe := yoeOf doe
  let doy := doyOf doe
  let mp := mpOf doy
  let m := monthOf mp
  let d := doy - (153 * mp + 2) / 5 + 1
  (yoe + era * 400 + (if m ≤ 2 then 1 else 0), m, d)

/-- The quantity whose floor-division by 365 yields the year-of-era. -/
def gAux (n : Int) : Int := n - n / 1460 + n / 36524 - n / 146096

theorem yoeOf_eq_gAux (doe : Int) : yoeOf doe = (gAux doe) / 365 := rfl

theorem ediv_succ_le (n : Int) {k : Int} (hk : 0 < k) :
    (n + 1) / k ≤ n / k + 1 := by
  have h := Int.add_mul_ediv_right n 1 (ne_of_gt hk)
  have hle : n + 1 ≤ n + 1 * k := by nlinarith
  calc (n + 1) / k ≤ (n + 1 * k) / k := Int.ediv_le_ediv hk hle
    _ = n / k + 1 := h

theorem ediv_le_succ (n : Int) {k : Int} (hk : 0 < k) :
    n / k ≤ (n + 1) / k :=
  Int.ediv_le_ediv hk (by omega)

theorem gAux_step {n : Int} (h0 : 0 ≤ n) (h1 : n < 146096) :
    gAux n ≤ gAux (n + 1) := by
  rcases lt_or_eq_of_le (by omega : n ≤ 146095) with h | h
  · have ha1 : (n + 1) / 1460 ≤ n / 1460 + 1 := ediv_succ_le n (by norm_num)
    have ha2 : n / 36524 ≤ (n + 1) / 36524 := ediv_le_succ n (by norm_num)
    have hb1 : n / 146096 = 0 := Int.ediv_eq_zero_of_lt h0 (by omega)
    have hb2 : (n + 1) / 146096 = 0 :=
      Int.ediv_eq_zero_of_lt (by omega) (by omega)
    simp only [gAux, hb1, hb2]
    omega
  · subst h; decide

theorem gAux_mono_aux (k : Nat) : ∀ m : Int, 0 ≤ m → m + k ≤ 146096 →
    gAux m ≤ gAux (m + k) := by
  induction k with
  | zero => intro m _ _; simp
  | succ k ih =>
      intro m hm hk
      have h1 : gAux m ≤ gAux (m + k) := ih m hm (by push_cast at hk ⊢; omega)
      have h2 : gAux (m + k) ≤ gAux (m + k + 1) :=
        gAux_step (by positivity) (by push_cast at hk ⊢; omega)
      calc gAux m ≤ gAux (m + k) := h1
        _ ≤ gAux (m + (k + 1)) := by rw [← add_assoc]; exact h2

theorem gAux_mono {m n : Int} (hm : 0 ≤ m) (hmn : m ≤ n) (hn : n ≤ 146096) :
    gAux m ≤ gAux n := by
  have h := gAux_mono_aux (n - m).toNat m hm
    (by rw [Int.toNat_of_nonneg (by omega)]; omega)
  rwa [Int.toNat_of_nonneg (by omega), add_sub_cancel] at h

theorem yoeOf_mono {m n : Int} (hm : 0 ≤ m) (hmn : m ≤ n) (hn : n ≤ 146096) :
    yoeOf m ≤ yoeOf n := by
  rw [yoeOf_eq_gAux, yoeOf_eq_gAux]
  exact Int.ediv_le_ediv (by norm_num) (gAux_mono hm hmn hn)

/-- Last day-of-era belonging to a given year-of-era (the era has 146097
days, so year-of-era 399 ends at day-of-era 146096). -/
def doeEnd (Y : Nat) : Int :=
  if Y = 399 then 146096 else doeStart ((Y : Int) + 1) - 1

set_option maxRecDepth 4000 in
theorem yoe_endpoint_check : ∀ Y : Nat, Y < 400 →
    yoeOf (doeStart Y) = Y ∧ yoeOf (doeEnd Y) = Y ∧
    doeEnd Y - doeStart Y ≤ 365 ∧ 0 ≤ doeStart Y ∧
    doeEnd Y ≤ 146096 := by decide

theorem yoe_correct {doe : Int} (h0 : 0 ≤ doe) (h1 : doe ≤ 146096) :
    0 ≤ yoeOf doe ∧ yoeOf doe ≤ 399 ∧ doeStart (yoeOf doe) ≤ doe ∧
    doe - doeStart (yoeOf doe) ≤ 365 := by
  classical
  set P : Nat → Prop := fun k => doeStart k ≤ doe with hP
  have hP0 : P 0 := by
    have h00 : doeStart ((0 : Nat) : Int) = 0 := by decide
    simp only [hP]; omega
  set Y := Nat.findGreatest P 399 with hYdef
  have hPY : P Y := Nat.findGreatest_spec (Nat.zero_le 399) hP0
  have hYle : Y ≤ 399 := Nat.findGreatest_le 399
  have hupper : doe ≤ doeEnd Y := by
    rcases lt_or_eq_of_le hYle with h | h
    · have hgr := Nat.findGreatest_is_greatest (k := Y + 1) (P := P) (n := 399)
        (by omega) (by omega)
      simp only [hP] at hgr
      have hne : Y ≠ 399 := by omega
      simp only [doeEnd, hne, if_false]
      push_cast at hgr ⊢
      omega
    · simp only [doeEnd, h.symm, if_true]; omega
  obtain ⟨he1, he2, he3, he4, he5⟩ := yoe_endpoint_check Y (by omega)
  have hY1 : (Y : Int) ≤ yoeOf doe := by
    calc (Y : Int) = yoeOf (doeStart Y) := he1.symm
      _ ≤ yoeOf doe := yoeOf_mono he4 hPY h1
  have hY2 : yoeOf doe ≤ (Y : Int) := by
    calc yoeOf doe ≤ yoeOf (doeEnd Y) := yoeOf_mono h0 hupper he5
      _ = Y := he2
  have hYeq : yoeOf doe = (Y : Int) := le_antisymm hY2 hY1
  refine ⟨by omega, by omega, by rw [hYeq]; exact hPY, by rw [hYeq]; omega⟩

theorem doeOf_eq_emod (z : Int) : doeOf z = (z + 719468) % 146097 := by
  rw [doeOf, eraOf, Int.emod_def]; ring

theorem doeOf_nonneg (z : Int) : 0 ≤ doeOf z := by
  rw [doeOf_eq_emod]; exact Int.emod_nonneg _ (by norm_num)

theorem doeOf_le (z : Int) : doeOf z ≤ 146096 := by
  rw [doeOf_eq_emod]
  have := Int.emod_lt_of_pos (z + 719468) (show (0:Int) < 146097 by norm_num)
  omega

theorem doyOf_bounds {doe : Int} (h0 : 0 ≤ doe) (h1 : doe ≤ 146096) :
    0 ≤ doyOf doe ∧ doyOf doe ≤ 365 := by
  obtain ⟨_, _, hys, hye⟩ := yoe_correct h0 h1
  constructor <;> (rw [doyOf]; omega)

theorem mpOf_bounds {doy : Int} (h0 : 0 ≤ doy) (h1 : doy ≤ 365) :
    0 ≤ mpOf doy ∧ mpOf doy ≤ 11 := by
  constructor
  · exact Int.ediv_nonneg (by omega) (by norm_num)
  · have h := Int.ediv_le_ediv (show (0:Int) < 153 by norm_num)
      (show 5 * doy + 2 ≤ 1827 by omega)
    have h2 : (1827 : Int) / 153 = 11 := by decide
    rw [mpOf]; omega

theorem month_recode {mp : Int} (h0 : 0 ≤ mp) (h1 : mp ≤ 11) :
    (if 2 < monthOf mp then monthOf mp - 3 else monthOf mp + 9) = mp := by
  rcases lt_or_le mp 10 with h | h
  · rw [monthOf, if_pos h, if_pos (by omega)]; ring
  · rw [monthOf, if_neg (by omega), if_neg (by omega)]; ring

theorem encode_decode (era : Int) {doe : Int} (h0 : 0 ≤ doe)
    (h1 : doe ≤ 146096) :
    daysFromCivil
      (yoeOf doe + era * 400 +
        (if monthOf (mpOf (doyOf doe)) ≤ 2 then 1 else 0))
      (monthOf (mpOf (doyOf doe)))
      (doyOf doe - (153 * mpOf (doyOf doe) + 2) / 5 + 1)
      = era * 146097 + doe - 719468 := by
  obtain ⟨hyoe0, hyoe1, hys, hye⟩ := yoe_correct h0 h1
  obtain ⟨hdoy0, hdoy1⟩ := doyOf_bounds h0 h1
  obtain ⟨hmp0, hmp1⟩ := mpOf_bounds hdoy0 hdoy1
  set yoe := yoeOf doe with hyoed
  set doy := doyOf doe with hdoyd
  set mp := mpOf doy with hmpd
  set m := monthOf mp with hmd
  set c : Int := if m ≤ 2 then 1 else 0 with hcd
  set y : Int := yoe + era * 400 + c with hyd
  set d : Int := doy - (153 * mp + 2) / 5 + 1 with hdd
  simp only [daysFromCivil]
  have h1' : y - (if m ≤ 2 then 1 else 0) = yoe + era * 400 := by
    rw [hyd, hcd]; ring
  rw [h1']
  have h2 := Int.add_mul_ediv_right yoe era (show (400:Int) ≠ 0 by norm_num)
  have h3 : yoe / 400 = 0 := Int.ediv_eq_zero_of_lt hyoe0 (by omega)
  have h4 : (yoe + era * 400) / 400 = era := by rw [h2, h3]; ring
  rw [h4]
  have h5 : yoe + era * 400 - era * 400 = yoe := by ring
  rw [h5]
  rw [month_recode hmp0 hmp1]
  have h7 : (153 * mp + 2) / 5 + d - 1 = doy := by rw [hdd]; ring
  rw [h7]
  have h8 : doy = doe - doeStart yoe := by rw [hdoyd, doyOf, ← hyoed]
  rw [h8, doeStart]
  ring

/-- Re-encoding the civil date of any day number gives back that number. -/
theorem daysFromCivil_civilFromDays (z : Int) :
    daysFromCivil (civilFromDays z).1 (civilFromDays z).2.1
      (civilFromDays z).2.2 = z := by
  have h := encode_decode (eraOf z) (doeOf_nonneg z) (doeOf_le z)
  have hz : eraOf z * 146097 + doeOf z - 719468 = z := by
    rw [doeOf]; ring
  rw [hz] at h
  exact h

theorem day_bounds {doy : Int} (h0 : 0 ≤ doy) (h1 : doy ≤ 365) :
    1 ≤ doy - (153 * mpOf doy + 2) / 5 + 1 ∧
    doy - (153 * mpOf doy + 2) / 5 + 1 ≤ 31 := by
  obtain ⟨hmp0, hmp1⟩ := mpOf_bounds h0 h1
  set mp := mpOf doy with hmpd
  have hmpdec := Int.ediv_add_emod (5 * doy + 2) 153
  have hmpr0 := Int.emod_nonneg (5 * doy + 2) (show (153:Int) ≠ 0 by norm_num)
  have hmpr1 := Int.emod_lt_of_pos (5 * doy + 2) (show (0:Int) < 153 by norm_num)
  have hmpeq : mp = (5 * doy + 2) / 153 := by rw [hmpd, mpOf]
  rw [← hmpeq] at hmpdec
  have hadec := Int.ediv_add_emod (153 * mp + 2) 5
  have har0 := Int.emod_nonneg (153 * mp + 2) (show (5:Int) ≠ 0 by norm_num)
  have har1 := Int.emod_lt_of_pos (153 * mp + 2) (show (0:Int) < 5 by norm_num)
  omega

theorem month_bounds {mp : Int} (h0 : 0 ≤ mp) (h1 : mp ≤ 11) :
    1 ≤ monthOf mp ∧ monthOf mp ≤ 12 := by
  rw [monthOf]
  rcases lt_or_le mp 10 with h | h
  · rw [if_pos h]; omega
  · rw [if_neg (by omega)]; omega

/-- Bounds on the components of a decoded civil date. -/
theorem civilFromDays_bounds (z : Int) :
    1 ≤ (civilFromDays z).2.1 ∧ (civilFromDays z).2.1 ≤ 12 ∧
    1 ≤ (civilFromDays z).2.2 ∧ (civilFromDays z).2.2 ≤ 31 := by
  obtain ⟨hdoy0, hdoy1⟩ := doyOf_bounds (doeOf_nonneg z) (doeOf_le z)
  obtain ⟨hmp0, hmp1⟩ := mpOf_bounds hdoy0 hdoy1
  obtain ⟨hm1, hm2⟩ := month_bounds hmp0 hmp1
  obtain ⟨hd1, hd2⟩ := day_bounds hdoy0 hdoy1
  exact ⟨hm1, hm2, hd1, hd2⟩

/-! ## Millisecond level: instants <-> civil date-times (ECMAScript getters) -/

/-- Civil (calendar + clock) fields of an instant. -/
structure CivilDT where
  year : Int
  month : Int
  day : Int
  hour : Int
  minute : Int
  second : Int
  milli : Int
deriving DecidableEq

/-- Decompose an instant (ms since epoch) into UTC civil fields, exactly as
the ECMAScript abstract operations YearFromTime .. msFromTime do. -/
def civilFromMs (x : Int) : CivilDT :=
  let z := x / 86400000
  let rem := x % 86400000
  let c := civilFromDays z
  { year := c.1, month := c.2.1, day := c.2.2,
    hour := rem / 3600000, minute := rem % 3600000 / 60000,
    second := rem % 60000 / 1000, milli := rem % 1000 }

/-- Recombine civil fields into an instant (ECMAScript MakeDay/MakeTime/
MakeDate); the day field is normalised linearly. -/
def msFromCivilFields (y m d h mi s ms : Int) : Int :=
  daysFromCivil y m d * 86400000 + h * 3600000 + mi * 60000 + s * 1000 + ms

theorem msFromCivil_civilFromMs (x : Int) :
    msFromCivilFields (civilFromMs x).year (civilFromMs x).month
      (civilFromMs x).day (civilFromMs x).hour (civilFromMs x).minute
      (civilFromMs x).second (civilFromMs x).milli = x := by
  have hday := daysFromCivil_civilFromDays (x / 86400000)
  simp only [civilFromMs, msFromCivilFields]
  rw [hday]
  omega

theorem civilFromMs_month_day_bounds (x : Int) :
    1 ≤ (civilFromMs x).month ∧ (civilFromMs x).month ≤ 12 ∧
    1 ≤ (civilFromMs x).day ∧ (civilFromMs x).day ≤ 31 := by
  have h := civilFromDays_bounds (x / 86400000)
  simp only [civilFromMs]
  exact h

theorem civilFromMs_time_bounds (x : Int) :
    0 ≤ (civilFromMs x).hour ∧ (civilFromMs x).hour ≤ 23 ∧
    0 ≤ (civilFromMs x).minute ∧ (civilFromMs x).minute ≤ 59 ∧
    0 ≤ (civilFromMs x).second ∧ (civilFromMs x).second ≤ 59 ∧
    0 ≤ (civilFromMs x).milli ∧ (civilFromMs x).milli ≤ 999 := by
  simp only [civilFromMs]
  refine ⟨?_, ?_, ?_, ?_, ?_, ?_, ?_, ?_⟩ <;> omega

/-! ## The JS `Date` API surface used by the app -/

/-- ECMAScript MakeFullYear: two-digit years are shifted into 19xx. -/
def mkFullYear (y : Int) : Int := if 0 ≤ y ∧ y ≤ 99 then y + 1900 else y

/-- `Date.UTC(y, m0, d, h, mi, s, ms)` with 0-based month `m0`; out-of-range
fields are normalised as in ECMAScript MakeDay/MakeDate. -/
def dateUTC (y m0 d h mi s ms : Int) : Int :=
  msFromCivilFields (mkFullYear y + m0 / 12) (m0 % 12 + 1) d h mi s ms

/-- `new Date(y, m0, d, h, mi, s, ms)`: same fields interpreted in local
time under the fixed timezone offset `tz` (ms east of UTC). -/
def dateFromLocalFields (y m0 d h mi s ms tz : Int) : Int :=
  dateUTC y m0 d h mi s ms - tz

/-- The local civil fields of an instant (`getFullYear` = `.year`,
`getMonth` = `.month - 1`, `getDate` = `.day`, ...). -/
def localFields (t tz : Int) : CivilDT := civilFromMs (t + tz)

/-- `Date.prototype.getDay()` under timezone offset `tz`
(0 = Sunday .. 6 = Saturday). -/
def getDay (t tz : Int) : Int := ((t + tz) / 86400000 + 4) % 7

/-! ## Rendering: ISO strings as character lists -/

/-- The decimal digit character for `k % 10`. -/
def digitChar (k : Nat) : Char := Char.ofNat (48 + k % 10)

/-- Fixed-width positional decimal rendering; agrees with JS
`String(n).padStart(w, "0")` whenever `n < 10^w`. -/
def pad2 (n : Nat) : List Char := [digitChar (n / 10), digitChar n]

def pad3 (n : Nat) : List Char :=
  [digitChar (n / 100), digitChar (n / 10), digitChar n]

def pad4 (n : Nat) : List Char :=
  [digitChar (n / 1000), digitChar (n / 100), digitChar (n / 10), digitChar n]

def pad6 (n : Nat) : List Char :=
  [digitChar (n / 100000), digitChar (n / 10000), digitChar (n / 1000),
   digitChar (n / 100), digitChar (n / 10), digitChar n]

theorem digitChar_ne {c : Char} (hc : c ∈ (['T', '-', 'Z', ':', '.', '/'] : List Char))
    (k : Nat) : digitChar k ≠ c := by
  have h : ∀ j : Nat, j < 10 →
      Char.ofNat (48 + j) ∉ (['T', '-', 'Z', ':', '.', '/'] : List Char) := by decide
  intro hEq
  rw [← hEq] at hc
  exact h (k % 10) (Nat.mod_lt _ (by norm_num)) hc

theorem mem_pad2 {c : Char} {n : Nat} (h : c ∈ pad2 n) : ∃ k, c = digitChar k := by
  simp only [pad2, List.mem_cons, List.not_mem_nil, or_false] at h
  rcases h with h | h
  exacts [⟨n / 10, h⟩, ⟨n, h⟩]

theorem mem_pad4 {c : Char} {n : Nat} (h : c ∈ pad4 n) : ∃ k, c = digitChar k := by
  simp only [pad4, List.mem_cons, List.not_mem_nil, or_false] at h
  rcases h with h | h | h | h
  exacts [⟨n / 1000, h⟩, ⟨n / 100, h⟩, ⟨n / 10, h⟩, ⟨n, h⟩]

/-- `Date.prototype.toISOString()`: years 0..9999 print as four digits,
other years in the expanded `±YYYYYY` form. -/
def toISOString (x : Int) : List Char :=
  let c := civilFromMs x
  let yearPart : List Char :=
    if 0 ≤ c.year ∧ c.year ≤ 9999 then pad4 c.year.toNat
    else (if c.year < 0 then '-' else '+') :: pad6 c.year.natAbs
  yearPart ++ '-' :: pad2 c.month.toNat ++ '-' :: pad2 c.day.toNat ++
    'T' :: pad2 c.hour.toNat ++ ':' :: pad2 c.minute.toNat ++
    ':' :: pad2 c.second.toNat ++ '.' :: pad3 c.milli.toNat ++ ['Z']

/-! ## JS string splitting (`String.prototype.split` with a one-char
separator), on `List Char` -/

def jsSplit (sep : Char) : List Char → List (List Char)
  | [] => [[]]
  | c :: rest =>
    let r := jsSplit sep rest
    if c = sep then [] :: r else (c :: r.headD []) :: r.tail

theorem jsSplit_ne_nil (sep : Char) (s : List Char) : jsSplit sep s ≠ [] := by
  cases s with
  | nil => simp [jsSplit]
  | cons c rest => simp only [jsSplit]; split <;> simp

theorem jsSplit_of_not_mem {sep : Char} {s : List Char} (h : sep ∉ s) :
    jsSplit sep s = [s] := by
  induction s with
  | nil => rfl
  | cons c rest ih =>
      simp only [List.mem_cons, not_or] at h
      simp only [jsSplit, ih h.2]
      rw [if_neg (fun hc : c = sep => h.1 hc.symm)]
      rfl

theorem jsSplit_append {sep : Char} {a : List Char} (b : List Char)
    (h : sep ∉ a) : jsSplit sep (a ++ sep :: b) = a :: jsSplit sep b := by
  induction a with
  | nil => simp [jsSplit]
  | cons c rest ih =>
      simp only [List.mem_cons, not_or] at h
      rw [List.cons_append]
      simp only [jsSplit, ih h.2]
      rw [if_neg (fun hc : c = sep => h.1 hc.symm)]
      rfl

/-! ## `utils/date.ts`: naive-UTC encode and date display -/

/-- What a JS template literal prints for `undefined`. -/
def jsUndefinedStr : List Char := ['u','n','d','e','f','i','n','e','d']

/-- `toNaiveUTCISOString` (src/utils/date.ts): reads the LOCAL calendar and
clock fields of the date, feeds them to `Date.UTC`, and prints the resulting
instant with `toISOString`. -/
def toNaiveUTCISOString (t tz : Int) : List Char :=
  let c := localFields t tz
  toISOString (dateUTC c.year (c.month - 1) c.day c.hour c.minute c.second
    c.milli)

/-- `formatDateFromNaiveUTC` (src/utils/date.ts): guard on emptiness and the
presence of a `"T"`, split the date part on `"-"`, and reassemble as
`DD/MM/YYYY`. -/
def formatDateFromNaiveUTC (s : List Char) : List Char :=
  if s.isEmpty || !(s.contains 'T') then []
  else
    let datePart := (jsSplit 'T' s).headD []
    let parts := jsSplit '-' datePart
    parts.getD 2 jsUndefinedStr ++ '/' :: parts.getD 1 jsUndefinedStr ++
      '/' :: parts.getD 0 jsUndefinedStr

theorem dash_not_mem_pad4 (n : Nat) : '-' ∉ pad4 n := by
  intro h
  obtain ⟨k, hk⟩ := mem_pad4 h
  exact digitChar_ne (by simp) k hk.symm

theorem dash_not_mem_pad2 (n : Nat) : '-' ∉ pad2 n := by
  intro h
  obtain ⟨k, hk⟩ := mem_pad2 h
  exact digitChar_ne (by simp) k hk.symm

theorem formatDate_of_iso_shape (y mo d : Nat) (rest : List Char) :
    formatDateFromNaiveUTC
      ((pad4 y ++ '-' :: (pad2 mo ++ '-' :: pad2 d)) ++ 'T' :: rest) =
      pad2 d ++ '/' :: pad2 mo ++ '/' :: pad4 y := by
  set A : List Char := pad4 y ++ '-' :: (pad2 mo ++ '-' :: pad2 d) with hA
  have hTA : 'T' ∉ A := by
    rw [hA]
    intro h
    rcases List.mem_append.1 h with h | h
    · obtain ⟨k, hk⟩ := mem_pad4 h
      exact digitChar_ne (by simp) k hk.symm
    · rcases List.mem_cons.1 h with h | h
      · exact absurd h (by decide)
      · rcases List.mem_append.1 h with h | h
        · obtain ⟨k, hk⟩ := mem_pad2 h
          exact digitChar_ne (by simp) k hk.symm
        · rcases List.mem_cons.1 h with h | h
          · exact absurd h (by decide)
          · obtain ⟨k, hk⟩ := mem_pad2 h
            exact digitChar_ne (by simp) k hk.symm
  have hsplitT : jsSplit 'T' (A ++ 'T' :: rest) = A :: jsSplit 'T' rest :=
    jsSplit_append rest hTA
  have hmemT : 'T' ∈ A ++ 'T' :: rest :=
    List.mem_append.2 (Or.inr (List.mem_cons.2 (Or.inl rfl)))
  have hcontains : (A ++ 'T' :: rest).contains 'T' = true := by
    simp [List.contains, List.elem_iff, hmemT]
  have hne : (A ++ 'T' :: rest).isEmpty = false := by
    cases h : A ++ 'T' :: rest
    · exact absurd (h ▸ hmemT) (by simp)
    · rfl
  have hcond : ((A ++ 'T' :: rest).isEmpty ||
      !((A ++ 'T' :: rest).contains 'T')) = false := by
    rw [hne, hcontains]; rfl
  have hsplitDash : jsSplit '-' A = [pad4 y, pad2 mo, pad2 d] := by
    rw [hA, jsSplit_append _ (dash_not_mem_pad4 y),
      jsSplit_append _ (dash_not_mem_pad2 mo),
      jsSplit_of_not_mem (dash_not_mem_pad2 d)]
  simp only [formatDateFromNaiveUTC, hcond, Bool.false_eq_true, if_false,
    hsplitT, List.headD_cons, hsplitDash]
  rfl

theorem formatDate_toISOString (x : Int) (h1 : 100 ≤ (civilFromMs x).year)
    (h2 : (civilFromMs x).year ≤ 9999) :
    formatDateFromNaiveUTC (toISOString x) =
      pad2 (civilFromMs x).day.toNat ++ '/' ::
        pad2 (civilFromMs x).month.toNat ++ '/' ::
        pad4 (civilFromMs x).year.toNat := by
  have hyp : 0 ≤ (civilFromMs x).year ∧ (civilFromMs x).year ≤ 9999 :=
    ⟨by omega, h2⟩
  have hiso : toISOString x =
      (pad4 (civilFromMs x).year.toNat ++
        '-' :: (pad2 (civilFromMs x).month.toNat ++
          '-' :: pad2 (civilFromMs x).day.toNat)) ++
      'T' :: (pad2 (civilFromMs x).hour.toNat ++
        ':' :: pad2 (civilFromMs x).minute.toNat ++
        ':' :: pad2 (civilFromMs x).second.toNat ++
        '.' :: pad3 (civilFromMs x).milli.toNat ++ ['Z']) := by
    simp only [toISOString, if_pos hyp, List.append_assoc, List.cons_append]
  rw [hiso, formatDate_of_iso_shape]

theorem dateUTC_of_localFields (t tz : Int)
    (h1 : 100 ≤ (localFields t tz).year) :
    dateUTC (localFields t tz).year ((localFields t tz).month - 1)
      (localFields t tz).day (localFields t tz).hour
      (localFields t tz).minute (localFields t tz).second
      (localFields t tz).milli = t + tz := by
  obtain ⟨hm1, hm2, _, _⟩ := civilFromMs_month_day_bounds (t + tz)
  have hmb1 : 1 ≤ (localFields t tz).month := hm1
  have hmb2 : (localFields t tz).month ≤ 12 := hm2
  rw [dateUTC, mkFullYear, if_neg (by omega)]
  rw [Int.ediv_eq_zero_of_lt (by omega) (by omega : (localFields t tz).month - 1 < 12)]
  rw [Int.emod_eq_of_lt (by omega) (by omega : (localFields t tz).month - 1 < 12)]
  have hm : (localFields t tz).month - 1 + 1 = (localFields t tz).month := by
    ring
  rw [add_zero, hm]
  exact msFromCivil_civilFromMs (t + tz)

/-- C5 counterexample: the round-trip claim fails as stated.  For a valid
local date-time with local year 50 (under UTC, tz = 0), `Date.UTC` applies
the ECMAScript two-digit-year rule and shifts the year to 1950, so the
formatted date is `01/01/1950`, not the `01/01/0050` that would reproduce
the local year. -/
theorem c5_counterexample :
    (localFields (msFromCivilFields 50 1 1 0 0 0 0) 0).year = 50 ∧
    formatDateFromNaiveUTC
        (toNaiveUTCISOString (msFromCivilFields 50 1 1 0 0 0 0) 0) =
      "01/01/1950".toList ∧
    formatDateFromNaiveUTC
        (toNaiveUTCISOString (msFromCivilFields 50 1 1 0 0 0 0) 0) ≠
      pad2 (localFields (msFromCivilFields 50 1 1 0 0 0 0) 0).day.toNat ++
        '/' :: pad2 (localFields (msFromCivilFields 50 1 1 0 0 0 0) 0).month.toNat ++
        '/' :: pad4 (localFields (msFromCivilFields 50 1 1 0 0 0 0) 0).year.toNat := by
  refine ⟨by decide, by decide, by decide⟩

/-- C5 (amended): for every instant `t` and every timezone offset `tz` such
that the local year lies in 100..9999, `formatDateFromNaiveUTC ∘
toNaiveUTCISOString` renders exactly the local calendar day, month and year
as `DD/MM/YYYY`, independently of the timezone. -/
theorem c5_naive_roundtrip (t tz : Int)
    (h1 : 100 ≤ (localFields t tz).year)
    (h2 : (localFields t tz).year ≤ 9999) :
    formatDateFromNaiveUTC (toNaiveUTCISOString t tz) =
      pad2 (localFields t tz).day.toNat ++ '/' ::
        pad2 (localFields t tz).month.toNat ++ '/' ::
        pad4 (localFields t tz).year.toNat := by
  have hd := dateUTC_of_localFields t tz h1
  simp only [toNaiveUTCISOString]
  rw [hd]
  exact formatDate_toISOString (t + tz) h1 h2

/-- C5 witness: the amended round-trip evaluated at the epoch under UTC. -/
theorem c5_naive_roundtrip_witness :
    100 ≤ (localFields 0 0).year ∧ (localFields 0 0).year ≤ 9999 ∧
    formatDateFromNaiveUTC (toNaiveUTCISOString 0 0) =
      pad2 (localFields 0 0).day.toNat ++ '/' ::
        pad2 (localFields 0 0).month.toNat ++ '/' ::
        pad4 (localFields 0 0).year.toNat :=
  ⟨by decide, by decide, c5_naive_roundtrip 0 0 (by decide) (by decide)⟩

/-! ## Parsing of the date-string formats the app stores

The app's stored date strings are either full `toISOString` output
(`YYYY-MM-DDTHH:mm:ss.sssZ`) or date-only input values (`YYYY-MM-DD`); per
the ECMAScript Date Time String Format both are interpreted as UTC.  Any
other string yields an invalid date, modelled as `none` (a `NaN`
timestamp). -/

def digitVal (c : Char) : Option Nat :=
  if '0' ≤ c ∧ c ≤ '9' then some (c.toNat - 48) else none

def d2v (a b : Char) : Option Nat := do
  let x ← digitVal a
  let y ← digitVal b
  pure (10 * x + y)

def d3v (a b c : Char) : Option Nat := do
  let x ← digitVal a
  let r ← d2v b c
  pure (100 * x + r)

def d4v (a b c d : Char) : Option Nat := do
  let x ← d2v a b
  let y ← d2v c d
  pure (100 * x + y)

def jsParseDate (s : List Char) : Option Int :=
  match s with
  | [y1, y2, y3, y4, '-', m1, m2, '-', d1, d2] => do
      let y ← d4v y1 y2 y3 y4
      let mo ← d2v m1 m2
      let dd ← d2v d1 d2
      if 1 ≤ mo ∧ mo ≤ 12 ∧ 1 ≤ dd ∧ dd ≤ 31 then
        pure (msFromCivilFields y mo dd 0 0 0 0)
      else none
  | [y1, y2, y3, y4, '-', m1, m2, '-', d1, d2, 'T', h1, h2, ':', i1, i2,
     ':', s1, s2, '.', f1, f2, f3, 'Z'] => do
      let y ← d4v y1 y2 y3 y4
      let mo ← d2v m1 m2
      let dd ← d2v d1 d2
      let hh ← d2v h1 h2
      let mi ← d2v i1 i2
      let ss ← d2v s1 s2
      let ff ← d3v f1 f2 f3
      if 1 ≤ mo ∧ mo ≤ 12 ∧ 1 ≤ dd ∧ dd ≤ 31 ∧ hh ≤ 23 ∧ mi ≤ 59 ∧
          ss ≤ 59 then
        pure (msFromCivilFields y mo dd hh mi ss ff)
      else none
  | _ => none

/-! ## Data model (src/types.ts) -/

inductive EntryType | GAIN | EXPENSE
deriving DecidableEq

inductive FuelType | ETHANOL | GASOLINE
deriving DecidableEq

inductive Platform | UBER | NINE_NINE | PARTICULAR
deriving DecidableEq

inductive ExpenseCategory | FUEL | RENTAL | WASHING | MAINTENANCE | FOOD | TOLLS | OTHER
deriving DecidableEq

structure FuelDetails where
  fuelType : FuelType
  pricePerLiter : ℚ
  avgConsumption : ℚ
  distanceDriven : ℚ
deriving DecidableEq

/-- An `Entry`; optional TS fields are `Option`s.  `date` holds a naive-UTC
ISO string. -/
structure Entry where
  id : List Char
  type : EntryType
  description : List Char
  amount : ℚ
  date : List Char
  category : Option ExpenseCategory := none
  fuelDetails : Option FuelDetails := none
  platform : Option Platform := none
  tripCount : Option ℚ := none
  isReward : Option Bool := none
deriving DecidableEq

/-- A pause inside a shift; `stop` models the TS field `end` (a Lean
keyword). -/
structure Pause where
  start : List Char
  stop : List Char
deriving DecidableEq

/-- A `Shift`; `stop` models the optional TS field `end`. -/
structure Shift where
  id : List Char
  start : List Char
  stop : Option (List Char) := none
  pauses : List Pause
deriving DecidableEq

inductive Period
  | today | yesterday | this_week | last_7_days | this_month | last_30_days
  | all | custom
deriving DecidableEq

structure CustomRange where
  start : List Char
  stop : List Char
deriving DecidableEq

structure Filter where
  period : Period
  customRange : CustomRange
deriving DecidableEq

/-! ## Duration calculator (src/utils/date.ts) -/

/-- `calculatePauseDuration`: sum of `end − start` over pauses whose two
bounds are truthy (non-empty) and parse with `end > start`; a `NaN`
comparison is false, so malformed pauses contribute zero. -/
def calculatePauseDuration (shift : Shift) : Int :=
  shift.pauses.foldl
    (fun acc p =>
      if p.start.isEmpty || p.stop.isEmpty then acc
      else
        match jsParseDate p.start, jsParseDate p.stop with
        | some ps, some pe => if ps < pe then acc + (pe - ps) else acc
        | _, _ => acc)
    0

/-- `calculateShiftDuration`: 0 when `start`/`end` are falsy; also 0 when
`end <= start`; otherwise `end − start`, minus the pause total when
`withPauses`, floored at 0.  When a bound fails to parse the JS value is
`NaN`: the `end <= start` guard is false and the final `duration > 0` test
is false, so the result is 0, which the `_, _` arm reproduces. -/
def calculateShiftDuration (shift : Shift) (withPauses : Bool) : Int :=
  if shift.start.isEmpty then 0
  else
    match shift.stop with
    | none => 0
    | some e =>
      if e.isEmpty then 0
      else
        match jsParseDate shift.start, jsParseDate e with
        | some st, some en =>
            if en ≤ st then 0
            else
              let dur := en - st
              let dur := if withPauses then dur - calculatePauseDuration shift
                else dur
              if 0 < dur then dur else 0
        | _, _ => 0

theorem ite_pos_eq_max (x : Int) : (if 0 < x then x else 0) = max 0 x := by
  rcases le_or_lt x 0 with h | h
  · rw [if_neg (not_lt.2 h), max_eq_left h]
  · rw [if_pos h, max_eq_right (le_of_lt h)]

theorem jsParseDate_nil : jsParseDate [] = none := rfl

/-- C4: `calculateShiftDuration` returns 0 when `start` or `end` is missing
(or empty) and when `end <= start`; otherwise it returns `end − start`,
minus the pause total when `withPauses` is true, clamped to be
non-negative. -/
theorem c4_shiftDuration (s : Shift) (w : Bool) :
    ((s.start.isEmpty = true ∨ s.stop = none ∨ s.stop = some []) →
      calculateShiftDuration s w = 0) ∧
    (∀ e st en, s.stop = some e → jsParseDate s.start = some st →
      jsParseDate e = some en → en ≤ st →
      calculateShiftDuration s w = 0) ∧
    (∀ e st en, s.stop = some e → jsParseDate s.start = some st →
      jsParseDate e = some en → st < en →
      calculateShiftDuration s w =
        max 0 (en - st - (if w then calculatePauseDuration s else 0))) := by
  refine ⟨?_, ?_, ?_⟩
  · rintro (h | h | h)
    · simp [calculateShiftDuration, h]
    · simp [calculateShiftDuration, h]
    · simp [calculateShiftDuration, h]
  · intro e st en he hst hen hle
    by_cases hse : s.start.isEmpty
    · simp [calculateShiftDuration, hse]
    · have hee : e.isEmpty = false := by
        cases e
        · rw [jsParseDate_nil] at hen; cases hen
        · rfl
      simp [calculateShiftDuration, hse, he, hee, hst, hen, hle]
  · intro e st en he hst hen hlt
    by_cases hse : s.start.isEmpty
    · rw [List.isEmpty_iff] at hse
      rw [hse, jsParseDate_nil] at hst; cases hst
    · have hee : e.isEmpty = false := by
        cases e
        · rw [jsParseDate_nil] at hen; cases hen
        · rfl
      simp only [calculateShiftDuration, hse, Bool.false_eq_true, if_false,
        he, hee, hst, hen]
      rw [if_neg (not_le.2 hlt), ite_pos_eq_max]
      congr 1
      cases w <;> simp

def exampleShiftC4 : Shift :=
  { id := [], start := "2024-01-01T08:00:00.000Z".toList,
    stop := some ("2024-01-01T10:00:00.000Z".toList),
    pauses := [{ start := "2024-01-01T08:30:00.000Z".toList,
                 stop := "2024-01-01T08:45:00.000Z".toList }] }

/-- C4 witness: a two-hour shift with a 15-minute pause evaluates to
6 300 000 ms through the theorem's third clause. -/
theorem c4_shiftDuration_witness :
    (1704096000000 : Int) < 1704103200000 ∧
    calculateShiftDuration exampleShiftC4 true = 6300000 := by
  refine ⟨by norm_num, ?_⟩
  have h := (c4_shiftDuration exampleShiftC4 true).2.2
    ("2024-01-01T10:00:00.000Z".toList) 1704096000000 1704103200000
    rfl (by decide) (by decide) (by norm_num)
  rw [h]; decide

/-! ## Period resolver (src/utils/date.ts `getPeriodRange`) -/

/-- `getPeriodRange`, parameterised by the current instant `now` and the
timezone offset `tz`.  A bound is `none` when the corresponding JS `Date`
would be invalid (`NaN`), which only happens for unparsable custom-range
strings.  The TS `default` arm is unreachable because `Period` is a closed
union. -/
def getPeriodRange (f : Filter) (now tz : Int) : Option Int × Option Int :=
  let n := localFields now tz
  let today := dateFromLocalFields n.year (n.month - 1) n.day 0 0 0 0 tz
  match f.period with
  | .today => (some today, some (today + 86400000 - 1))
  | .yesterday =>
      let yd := dateFromLocalFields n.year (n.month - 1) (n.day - 1) 0 0 0 0 tz
      (some yd, some (yd + 86400000 - 1))
  | .this_week =>
      let currentDay := getDay today tz
      let diff := n.day - currentDay + (if currentDay = 0 then -6 else 1)
      let startOfWeek := dateFromLocalFields n.year (n.month - 1) diff 0 0 0 0 tz
      let sw := localFields startOfWeek tz
      let endOfWeek :=
        dateFromLocalFields sw.year (sw.month - 1) (sw.day + 6) 23 59 59 999 tz
      (some startOfWeek, some endOfWeek)
  | .last_7_days =>
      (some (dateFromLocalFields n.year (n.month - 1) (n.day - 6) 0 0 0 0 tz),
       some now)
  | .this_month =>
      (some (dateFromLocalFields n.year (n.month - 1) 1 0 0 0 0 tz),
       some (dateFromLocalFields n.year n.month 0 23 59 59 999 tz))
  | .last_30_days =>
      (some (dateFromLocalFields n.year (n.month - 1) (n.day - 29) 0 0 0 0 tz),
       some now)
  | .all => (some 0, some now)
  | .custom =>
      if f.customRange.start.isEmpty || f.customRange.stop.isEmpty then
        (some 0, some 0)
      else
        ((jsParseDate f.customRange.start).map (fun x =>
            let c := civilFromMs x
            msFromCivilFields c.year c.month c.day 0 0 0 0),
         (jsParseDate f.customRange.stop).map (fun x =>
            let c := civilFromMs x
            msFromCivilFields c.year c.month c.day 23 59 59 999))

/-- C6: a `custom` filter with a missing (empty-string) bound resolves to
the empty/invalid range whose start and end are both the epoch
instant 0. -/
theorem c6_custom_empty_range (cr : CustomRange) (now tz : Int)
    (h : cr.start = [] ∨ cr.stop = []) :
    getPeriodRange { period := Period.custom, customRange := cr } now tz =
      (some 0, some 0) := by
  have hcond : (cr.start.isEmpty || cr.stop.isEmpty) = true := by
    rcases h with h | h <;> rw [h] <;> simp
  simp [getPeriodRange, hcond]

/-- C6 witness: the spec's own test vector `{start:'', end:'2024-01-01'}`. -/
theorem c6_custom_empty_range_witness :
    getPeriodRange
      { period := Period.custom,
        customRange := { start := [], stop := "2024-01-01".toList } } 0 0 =
      (some 0, some 0) :=
  c6_custom_empty_range _ 0 0 (Or.inl rfl)

/-! ## Period filtering (App.tsx `filteredEntries` / `filteredShifts`) -/

/-- JS `a >= b` on possibly-invalid dates: false when either is `NaN`. -/
def jsGe (a b : Option Int) : Bool :=
  match a, b with
  | some x, some y => decide (y ≤ x)
  | _, _ => false

/-- JS `a <= b` on possibly-invalid dates: false when either is `NaN`. -/
def jsLe (a b : Option Int) : Bool :=
  match a, b with
  | some x, some y => decide (x ≤ y)
  | _, _ => false

/-- The `filteredEntries` part of the `useMemo` at App.tsx:63-78. -/
def filteredEntriesOf (entries : List Entry) (f : Filter) (now tz : Int) :
    List Entry :=
  if decide (f.period = Period.custom) &&
      (f.customRange.start.isEmpty || f.customRange.stop.isEmpty) then []
  else
    let r := getPeriodRange f now tz
    entries.filter (fun e =>
      jsGe (jsParseDate e.date) r.1 && jsLe (jsParseDate e.date) r.2)

/-- The `filteredShifts` part of the same memo: shifts are kept when their
`start` falls inside the range. -/
def filteredShiftsOf (shifts : List Shift) (f : Filter) (now tz : Int) :
    List Shift :=
  if decide (f.period = Period.custom) &&
      (f.customRange.start.isEmpty || f.customRange.stop.isEmpty) then []
  else
    let r := getPeriodRange f now tz
    shifts.filter (fun s =>
      jsGe (jsParseDate s.start) r.1 && jsLe (jsParseDate s.start) r.2)

/-! ## Aggregation core totals (App.tsx `Dashboard.stats`, lines 263-267) -/

def statsRevenue (l : List Entry) : ℚ :=
  (l.filter (fun e => decide (e.type = EntryType.GAIN))).foldl
    (fun sum e => sum + e.amount) 0

def statsExpenses (l : List Entry) : ℚ :=
  (l.filter (fun e => decide (e.type = EntryType.EXPENSE))).foldl
    (fun sum e => sum + e.amount) 0

def statsProfit (l : List Entry) : ℚ := statsRevenue l - statsExpenses l

def statsTotalDurationMs (ls : List Shift) : Int :=
  ls.foldl (fun acc s => acc + calculateShiftDuration s true) 0

theorem foldl_add_map {α : Type} (g : α → ℚ) :
    ∀ (l : List α) (acc : ℚ),
      l.foldl (fun sum e => sum + g e) acc = acc + (l.map g).sum := by
  intro l
  induction l with
  | nil => intro acc; simp
  | cons x xs ih => intro acc; simp [ih]; ring

def gainEntryC3 : Entry :=
  { id := ['a'], type := EntryType.GAIN, description := [], amount := 100,
    date := "2024-01-01T10:00:00.000Z".toList }

def expenseEntryC3 : Entry :=
  { id := ['b'], type := EntryType.EXPENSE, description := [], amount := 40,
    date := "2024-01-01T11:00:00.000Z".toList,
    category := some ExpenseCategory.OTHER }

/-- C3: the aggregation's revenue is the sum of GAIN amounts, its expenses
the sum of EXPENSE amounts, and profit is their difference; on the spec's
test vector (one GAIN of 100 and one EXPENSE of 40) this gives 100, 40
and 60. -/
theorem c3_core_totals :
    (∀ l : List Entry,
      statsRevenue l =
        ((l.filter (fun e => decide (e.type = EntryType.GAIN))).map
          Entry.amount).sum ∧
      statsExpenses l =
        ((l.filter (fun e => decide (e.type = EntryType.EXPENSE))).map
          Entry.amount).sum ∧
      statsProfit l = statsRevenue l - statsExpenses l) ∧
    statsRevenue [gainEntryC3, expenseEntryC3] = 100 ∧
    statsExpenses [gainEntryC3, expenseEntryC3] = 40 ∧
    statsProfit [gainEntryC3, expenseEntryC3] = 60 := by
  have hd1 : decide (EntryType.EXPENSE = EntryType.GAIN) = false := rfl
  have hd2 : decide (EntryType.GAIN = EntryType.GAIN) = true := rfl
  have hd3 : decide (EntryType.GAIN = EntryType.EXPENSE) = false := rfl
  have hd4 : decide (EntryType.EXPENSE = EntryType.EXPENSE) = true := rfl
  have hrev : statsRevenue [gainEntryC3, expenseEntryC3] = 100 := by
    norm_num [statsRevenue, gainEntryC3, expenseEntryC3, List.filter,
      hd1, hd2, hd3, hd4]
  have hexp : statsExpenses [gainEntryC3, expenseEntryC3] = 40 := by
    norm_num [statsExpenses, gainEntryC3, expenseEntryC3, List.filter,
      hd1, hd2, hd3, hd4]
  refine ⟨fun l => ⟨?_, ?_, rfl⟩, hrev, hexp, ?_⟩
  · rw [statsRevenue, foldl_add_map, zero_add]
  · rw [statsExpenses, foldl_add_map, zero_add]
  · rw [statsProfit, hrev, hexp]; norm_num

/-! ## Goal progress display (App.tsx `SummaryCard` 186-224 and
`GoalProgressCard` 1362-1380) -/

/-- `SummaryCard`: `progress = current/target*100` when a positive target
goal is present, else 0. -/
def summaryCardProgress (current target : ℚ) : ℚ :=
  if 0 < target then current / target * 100 else 0

/-- `SummaryCard` bar width: `Math.max(0, Math.min(progress, 100))`. -/
def summaryCardBarWidth (current target : ℚ) : ℚ :=
  max 0 (min (summaryCardProgress current target) 100)

/-- `SummaryCard` textual percentage: `Math.floor(progress)`. -/
def summaryCardText (current target : ℚ) : Int :=
  Int.floor (summaryCardProgress current target)

/-- `GoalProgressCard`: `targetValue > 0 ? currentValue/targetValue*100 : 0`. -/
def goalCardProgress (current target : ℚ) : ℚ :=
  if 0 < target then current / target * 100 else 0

/-- `GoalProgressCard` bar width: `Math.min(progress, 100)` — there is no
lower clamp. -/
def goalCardBarWidth (current target : ℚ) : ℚ :=
  min (goalCardProgress current target) 100

/-- `GoalProgressCard` textual percentage: `Math.floor(progress)`. -/
def goalCardText (current target : ℚ) : Int :=
  Int.floor (goalCardProgress current target)

/-- C1 counterexample: `GoalProgressCard` does not clamp the bar width
below: with current value −50 against the positive target 100 the rendered
width is −50%, which is outside [0, 100]. -/
theorem c1_counterexample :
    goalCardBarWidth (-50) 100 = -50 ∧ ¬ (0 ≤ goalCardBarWidth (-50) 100) := by
  have h : goalCardBarWidth (-50) 100 = -50 := by
    norm_num [goalCardBarWidth, goalCardProgress, min_def]
  exact ⟨h, by rw [h]; norm_num⟩

/-- C1 (amended): for a positive target, progress is
`current/target*100`; `SummaryCard` clamps its bar width to [0, 100], but
`GoalProgressCard` clamps only from above (`min(progress, 100)`, which can
be negative); in both, the textual percentage is `floor(progress)` with no
clamping. -/
theorem c1_progress_display (current target : ℚ) (h : 0 < target) :
    summaryCardProgress current target = current / target * 100 ∧
    goalCardProgress current target = current / target * 100 ∧
    summaryCardBarWidth current target =
      max 0 (min (current / target * 100) 100) ∧
    0 ≤ summaryCardBarWidth current target ∧
    summaryCardBarWidth current target ≤ 100 ∧
    goalCardBarWidth current target = min (current / target * 100) 100 ∧
    goalCardBarWidth current target ≤ 100 ∧
    summaryCardText current target = Int.floor (current / target * 100) ∧
    goalCardText current target = Int.floor (current / target * 100) := by
  have hp : summaryCardProgress current target = current / target * 100 :=
    if_pos h
  have hg : goalCardProgress current target = current / target * 100 :=
    if_pos h
  refine ⟨hp, hg, ?_, ?_, ?_, ?_, ?_, ?_, ?_⟩
  · rw [summaryCardBarWidth, hp]
  · exact le_max_left 0 _
  · exact max_le (by norm_num) (min_le_right _ _)
  · rw [goalCardBarWidth, hg]
  · exact min_le_right _ _
  · rw [summaryCardText, hp]
  · rw [goalCardText, hg]

/-- C1 witness: the amended statement at current −50, target 100. -/
theorem c1_progress_display_witness :
    (0 : ℚ) < 100 ∧ summaryCardBarWidth (-50) 100 = 0 ∧
    goalCardBarWidth (-50) 100 = min ((-50 : ℚ) / 100 * 100) 100 ∧
    summaryCardText (-50) 100 = -50 := by
  refine ⟨by norm_num, ?_,
    (c1_progress_display (-50) 100 (by norm_num)).2.2.2.2.2.1, ?_⟩
  · norm_num [summaryCardBarWidth, summaryCardProgress, min_def, max_def]
  · norm_num [summaryCardText, summaryCardProgress]

/-! ## Backup import (App.tsx `Settings.handleFileChange`, lines 630-665)

The parsed JSON file is modelled as a `JValue`; `jundef` is the JS
`undefined` produced by reading a missing property. -/

inductive JValue
  | jnull
  | jundef
  | jbool (b : Bool)
  | jnum (q : ℚ)
  | jstr (s : List Char)
  | jarr (elems : List JValue)
  | jobj (fields : List (List Char × JValue))

/-- Property read `o[k]`; with duplicate keys `JSON.parse` keeps the last
one.  Reading a missing property yields `undefined`. -/
def jsGet (fields : List (List Char × JValue)) (k : List Char) : JValue :=
  match (fields.reverse.find? (fun p => p.1 == k)) with
  | some p => p.2
  | none => JValue.jundef

/-- The `'k' in o` operator. -/
def jsHasKey (fields : List (List Char × JValue)) (k : List Char) : Bool :=
  (fields.reverse.find? (fun p => p.1 == k)).isSome

def isArray : JValue → Bool
  | .jarr _ => true
  | _ => false

/-- `typeof v === 'object'`: true for objects, arrays and `null`. -/
def jsTypeofObject : JValue → Bool
  | .jnull => true
  | .jarr _ => true
  | .jobj _ => true
  | _ => false

/-- The import validation: the three keys must be present, `entries` and
`shifts` must be arrays, and `goals` must have `typeof === 'object'`.  A
non-object top-level value makes the `in` operator throw, which the catch
turns into a rejection, so it validates to false. -/
def validateBackup : JValue → Bool
  | .jobj fs =>
      jsHasKey fs ("entries".toList) && jsHasKey fs ("shifts".toList) &&
      jsHasKey fs ("goals".toList) &&
      isArray (jsGet fs ("entries".toList)) &&
      isArray (jsGet fs ("shifts".toList)) &&
      jsTypeofObject (jsGet fs ("goals".toList))
  | _ => false

/-- The stored collections, as the raw JS values `setEntries`/`setShifts`/
`setGoals` receive. -/
structure BackupState where
  entries : JValue
  shifts : JValue
  goals : JValue

/-- `handleFileChange` after a successful JSON parse: on validation failure
the handler throws and the catch leaves the state untouched; on success the
three collections are replaced only if the user confirms. -/
def handleImport (j : JValue) (confirmed : Bool) (s : BackupState) :
    BackupState :=
  match j with
  | .jobj fs =>
      if validateBackup (JValue.jobj fs) then
        if confirmed then
          { entries := jsGet fs ("entries".toList),
            shifts := jsGet fs ("shifts".toList),
            goals := jsGet fs ("goals".toList) }
        else s
      else s
  | _ => s

/-- C7: a backup whose `shifts` field is a non-array object fails
validation, and any backup failing validation leaves the stored entries,
shifts and goals unchanged. -/
theorem c7_import_rejected (j : JValue) (confirmed : Bool) (s : BackupState) :
    (validateBackup j = false → handleImport j confirmed s = s) ∧
    (∀ fs o, j = JValue.jobj fs → jsGet fs ("shifts".toList) = JValue.jobj o →
      validateBackup j = false) := by
  constructor
  · intro h
    cases j with
    | jobj fs => simp [handleImport, h]
    | jnull => rfl
    | jundef => rfl
    | jbool b => rfl
    | jnum q => rfl
    | jstr t => rfl
    | jarr a => rfl
  · rintro fs o rfl hshift
    simp only [validateBackup, hshift]
    simp [isArray]

def badBackupC7 : JValue :=
  JValue.jobj [("entries".toList, JValue.jarr []),
    ("shifts".toList, JValue.jobj [("0".toList, JValue.jnull)]),
    ("goals".toList, JValue.jobj []),
    ("version".toList, JValue.jnum 1)]

def stateC7 : BackupState :=
  { entries := JValue.jarr [JValue.jnum 3],
    shifts := JValue.jarr [],
    goals := JValue.jobj [("daily".toList, JValue.jobj [])] }

/-- C7 witness: a concrete backup with an object-valued `shifts` is
rejected and a concrete store is left unchanged. -/
theorem c7_import_rejected_witness :
    validateBackup badBackupC7 = false ∧
    handleImport badBackupC7 true stateC7 = stateC7 := by
  have hv : validateBackup badBackupC7 = false :=
    (c7_import_rejected badBackupC7 true stateC7).2 _
      [("0".toList, JValue.jnull)] rfl rfl
  exact ⟨hv, (c7_import_rejected badBackupC7 true stateC7).1 hv⟩

def nullGoalsBackupC9 : JValue :=
  JValue.jobj [("entries".toList, JValue.jarr []),
    ("shifts".toList, JValue.jarr []),
    ("goals".toList, JValue.jnull),
    ("version".toList, JValue.jnum 1)]

/-- C9: a backup whose `entries` and `shifts` are arrays but whose `goals`
is `null` passes validation (`typeof null === 'object'`), and a confirmed
restore then replaces the stored goals with `null` instead of rejecting
the file. -/
theorem c9_null_goals_accepted :
    validateBackup nullGoalsBackupC9 = true ∧
    (handleImport nullGoalsBackupC9 true stateC7).goals = JValue.jnull ∧
    stateC7.goals ≠ JValue.jnull := by
  refine ⟨rfl, rfl, ?_⟩
  rw [show stateC7.goals = JValue.jobj [("daily".toList, JValue.jobj [])]
    from rfl]
  exact fun h => JValue.noConfusion h

/-! ## Collection mutation (App.tsx lines 81-105)

`Array.prototype.sort` with the comparator
`(a, b) => new Date(b.date).getTime() - new Date(a.date).getTime()`
sorts by parsed date descending; it is modelled by `mergeSort` under the
boolean relation "later-or-equal date first".  `new Date().toISOString()`
used as the fresh id is passed in as `nowIso`. -/

def entryDateKey (e : Entry) : Int := (jsParseDate e.date).getD 0

def entryDesc (a b : Entry) : Bool := decide (entryDateKey b ≤ entryDateKey a)

def addEntry (nowIso : List Char) (e : Entry) (l : List Entry) : List Entry :=
  (l ++ [{ e with id := nowIso }]).mergeSort entryDesc

def updateEntry (u : Entry) (l : List Entry) : List Entry :=
  (l.map (fun e => if e.id = u.id then u else e)).mergeSort entryDesc

def deleteEntry (i : List Char) (l : List Entry) : List Entry :=
  l.filter (fun e => decide (¬ e.id = i))

def shiftStartKey (s : Shift) : Int := (jsParseDate s.start).getD 0

def shiftDesc (a b : Shift) : Bool := decide (shiftStartKey b ≤ shiftStartKey a)

def addShift (nowIso : List Char) (sh : Shift) (l : List Shift) : List Shift :=
  (l ++ [{ sh with id := nowIso }]).mergeSort shiftDesc

def updateShift (u : Shift) (l : List Shift) : List Shift :=
  (l.map (fun s => if s.id = u.id then u else s)).mergeSort shiftDesc

def deleteShift (i : List Char) (l : List Shift) : List Shift :=
  l.filter (fun s => decide (¬ s.id = i))

/-- Entries in non-increasing order of their parsed date. -/
def SortedByDateDesc (l : List Entry) : Prop :=
  List.Pairwise (fun a b => entryDateKey b ≤ entryDateKey a) l

/-- Shifts in non-increasing order of their parsed start. -/
def SortedByStartDesc (l : List Shift) : Prop :=
  List.Pairwise (fun a b => shiftStartKey b ≤ shiftStartKey a) l

theorem mergeSort_entryDesc_sorted (l : List Entry) :
    SortedByDateDesc (l.mergeSort entryDesc) := by
  have h := @List.sorted_mergeSort Entry entryDesc
    (fun a b c hab hbc => by
      simp only [entryDesc, decide_eq_true_eq] at hab hbc ⊢; omega)
    (fun a b => by
      simp only [entryDesc, Bool.or_eq_true, decide_eq_true_eq]
      omega) l
  exact h.imp (fun hab => by
    simpa only [entryDesc, decide_eq_true_eq] using hab)

theorem mergeSort_shiftDesc_sorted (l : List Shift) :
    SortedByStartDesc (l.mergeSort shiftDesc) := by
  have h := @List.sorted_mergeSort Shift shiftDesc
    (fun a b c hab hbc => by
      simp only [shiftDesc, decide_eq_true_eq] at hab hbc ⊢; omega)
    (fun a b => by
      simp only [shiftDesc, Bool.or_eq_true, decide_eq_true_eq]
      omega) l
  exact h.imp (fun hab => by
    simpa only [shiftDesc, decide_eq_true_eq] using hab)

/-- C10: `addEntry` and `updateEntry` leave the entries sorted by date
descending, `addShift` and `updateShift` leave the shifts sorted by start
descending, and the two delete operations preserve those orders. -/
theorem c10_collection_sorting :
    (∀ nowIso e l, SortedByDateDesc (addEntry nowIso e l)) ∧
    (∀ u l, SortedByDateDesc (updateEntry u l)) ∧
    (∀ i l, SortedByDateDesc l → SortedByDateDesc (deleteEntry i l)) ∧
    (∀ nowIso sh ls, SortedByStartDesc (addShift nowIso sh ls)) ∧
    (∀ u ls, SortedByStartDesc (updateShift u ls)) ∧
    (∀ i ls, SortedByStartDesc ls → SortedByStartDesc (deleteShift i ls)) := by
  refine ⟨fun _ _ l => mergeSort_entryDesc_sorted _,
    fun _ l => mergeSort_entryDesc_sorted _,
    fun i l h => List.Pairwise.sublist (List.filter_sublist l) h,
    fun _ _ ls => mergeSort_shiftDesc_sorted _,
    fun _ ls => mergeSort_shiftDesc_sorted _,
    fun i ls h => List.Pairwise.sublist (List.filter_sublist ls) h⟩

/-- C10 witness: adding an entry to a concrete singleton list yields a
sorted list, and deleting from a concrete sorted two-entry list preserves
sortedness. -/
theorem c10_collection_sorting_witness :
    SortedByDateDesc
      (addEntry ("2024-01-02T00:00:00.000Z".toList) gainEntryC3
        [expenseEntryC3]) ∧
    SortedByDateDesc [expenseEntryC3, gainEntryC3] ∧
    SortedByDateDesc (deleteEntry ['a'] [expenseEntryC3, gainEntryC3]) := by
  have hsorted : SortedByDateDesc [expenseEntryC3, gainEntryC3] := by
    rw [SortedByDateDesc]; decide
  exact ⟨c10_collection_sorting.1 _ _ _, hsorted,
    c10_collection_sorting.2.2.1 ['a'] _ hsorted⟩

/-! ## Insights: most profitable day of the week (App.tsx 3299-3331)

Entries are folded into per-weekday accumulators holding the signed profit
total and the set of distinct UTC calendar dates (a JS `Set` of
`toISOString().split('T')[0]` strings, modelled as a duplicate-free list).
The weekday uses the LOCAL `getDay()` of the parsed instant. -/

def entrySignedAmount (e : Entry) : ℚ :=
  if e.type = EntryType.GAIN then e.amount else -e.amount

/-- `date.toISOString().split('T')[0]`. -/
def dayKeyOf (t : Int) : List Char := (jsSplit 'T' (toISOString t)).headD []

/-- One step of the `forEach` building `dayStats`: entries with a falsy or
unparsable date are skipped. -/
def dayStatsStep (tz : Int)
    (acc : (Nat → ℚ) × (Nat → List (List Char))) (e : Entry) :
    (Nat → ℚ) × (Nat → List (List Char)) :=
  if e.date.isEmpty then acc
  else
    match jsParseDate e.date with
    | none => acc
    | some t =>
        let dow := (getDay t tz).toNat
        let key := dayKeyOf t
        (fun i => if i = dow then acc.1 i + entrySignedAmount e else acc.1 i,
         fun i =>
           if i = dow then
             if (acc.2 i).contains key then acc.2 i else acc.2 i ++ [key]
           else acc.2 i)

def dayStatsOf (entries : List Entry) (tz : Int) :
    (Nat → ℚ) × (Nat → List (List Char)) :=
  entries.foldl (dayStatsStep tz) (fun _ => 0, fun _ => [])

/-- `avgProfit`: `days.size > 0 ? profit / days.size : 0`. -/
def dayAvg (entries : List Entry) (tz : Int) (d : Nat) : ℚ :=
  let st := dayStatsOf entries tz
  if 0 < (st.2 d).length then st.1 d / ((st.2 d).length : ℚ) else 0

/-- The `reduce` step
`(max, current) => current.avgProfit > max.avgProfit ? current : max`
over accumulators seeded with `{day: -1, avgProfit: -Infinity}`. -/
def pickStep (acc : Int × WithBot ℚ) (p : Nat × ℚ) : Int × WithBot ℚ :=
  if acc.2 < (p.2 : WithBot ℚ) then ((p.1 : Int), (p.2 : WithBot ℚ)) else acc

/-- The selected weekday of the "most profitable day" insight, or `none`
when the UI shows "insufficient data" (`day === -1` or a non-positive
average). -/
def mostProfitableDayIndex (entries : List Entry) (tz : Int) : Option Int :=
  let best := ((List.range 7).map
    (fun d => (d, dayAvg entries tz d))).foldl pickStep (-1, (⊥ : WithBot ℚ))
  if best.1 ≠ -1 ∧ (0 : WithBot ℚ) < best.2 then some best.1 else none

theorem pickFold_char (l : List (Nat × ℚ)) (a : Int × WithBot ℚ) :
    (l.foldl pickStep a = a ∧ ∀ p ∈ l, (p.2 : WithBot ℚ) ≤ a.2) ∨
    (∃ l₁ p l₂, l = l₁ ++ p :: l₂ ∧
      l.foldl pickStep a = ((p.1 : Int), (p.2 : WithBot ℚ)) ∧
      a.2 < (p.2 : WithBot ℚ) ∧
      (∀ q ∈ l₁, (q.2 : WithBot ℚ) < (p.2 : WithBot ℚ)) ∧
      (∀ q ∈ l₂, (q.2 : WithBot ℚ) ≤ (p.2 : WithBot ℚ))) := by
  induction l generalizing a with
  | nil => left; exact ⟨rfl, by simp⟩
  | cons p l ih =>
      rw [List.foldl_cons]
      by_cases h : a.2 < (p.2 : WithBot ℚ)
      · have hstep : pickStep a p = ((p.1 : Int), (p.2 : WithBot ℚ)) := by
          rw [pickStep, if_pos h]
        rw [hstep]
        rcases ih ((p.1 : Int), (p.2 : WithBot ℚ)) with ⟨heq, hall⟩ |
          ⟨l₁, p', l₂, hsplit, heq, hlt, hbefore, hafter⟩
        · right
          exact ⟨[], p, l, rfl, heq, h, by simp, by simpa using hall⟩
        · right
          refine ⟨p :: l₁, p', l₂, by rw [hsplit, List.cons_append], heq, ?_, ?_, hafter⟩
          · exact lt_trans h hlt
          · intro q hq
            rcases List.mem_cons.1 hq with rfl | hq
            · exact hlt
            · exact hbefore q hq
      · have hstep : pickStep a p = a := by rw [pickStep, if_neg h]
        rw [hstep]
        rcases ih a with ⟨heq, hall⟩ |
          ⟨l₁, p', l₂, hsplit, heq, hlt, hbefore, hafter⟩
        · left
          refine ⟨heq, ?_⟩
          intro q hq
          rcases List.mem_cons.1 hq with rfl | hq
          · exact not_lt.1 h
          · exact hall q hq
        · right
          refine ⟨p :: l₁, p', l₂, by rw [hsplit, List.cons_append], heq, hlt, ?_, hafter⟩
          intro q hq
          rcases List.mem_cons.1 hq with rfl | hq
          · exact lt_of_le_of_lt (not_lt.1 h) hlt
          · exact hbefore q hq

theorem pickFold_range7 (A : Nat → ℚ) :
    ∃ j : Nat, j < 7 ∧
      ((List.range 7).map (fun d => (d, A d))).foldl pickStep
        (-1, (⊥ : WithBot ℚ)) = ((j : Int), ((A j : ℚ) : WithBot ℚ)) ∧
      (∀ i, i < 7 → A i ≤ A j) ∧
      (∀ i, i < j → A i < A j) := by
  set L : List (Nat × ℚ) := (List.range 7).map (fun d => (d, A d)) with hL
  have hlen : L.length = 7 := by rw [hL]; simp
  have hLget : ∀ i, i < 7 → ∀ hi : i < L.length, L[i] = (i, A i) := by
    intro i h7 hi
    rw [List.getElem_of_eq hL hi]
    simp
  rcases pickFold_char L (-1, (⊥ : WithBot ℚ)) with ⟨_, hall⟩ |
    ⟨l₁, p, l₂, hsplit, heq, _, hbefore, hafter⟩
  · exfalso
    have h0 : ((0 : Nat), A 0) ∈ L := by
      rw [hL]; exact List.mem_map.2 ⟨0, List.mem_range.2 (by norm_num), rfl⟩
    exact WithBot.not_coe_le_bot (A 0) (hall _ h0)
  · have hlen2 : l₁.length + (l₂.length + 1) = 7 := by
      rw [hsplit] at hlen
      simp [List.length_append] at hlen
      omega
    have hj7 : l₁.length < 7 := by omega
    have hjlen : l₁.length < L.length := by omega
    have hdropj : L.drop l₁.length = p :: l₂ := by
      rw [hsplit]; exact List.drop_left l₁ _
    have htakej : L.take l₁.length = l₁ := by
      rw [hsplit]; exact List.take_left l₁ _
    have hcons := List.drop_eq_getElem_cons hjlen
    rw [hdropj] at hcons
    injection hcons with hp hl₂
    have hpval : p = (l₁.length, A l₁.length) := by
      rw [hp]; exact hLget _ hj7 hjlen
    refine ⟨l₁.length, hj7, ?_, ?_, ?_⟩
    · rw [heq, hpval]
    · intro i hi7
      have hmem : (i, A i) ∈ L := by
        rw [hL]; exact List.mem_map.2 ⟨i, List.mem_range.2 hi7, rfl⟩
      rw [hsplit] at hmem
      rcases List.mem_append.1 hmem with hmem | hmem
      · have h := hbefore _ hmem
        rw [hpval] at h
        exact le_of_lt (WithBot.coe_lt_coe.1 h)
      · rcases List.mem_cons.1 hmem with hmem | hmem
        · rw [hpval] at hmem
          injection hmem with h1 h2
          rw [h1]
        · have h := hafter _ hmem
          rw [hpval] at h
          exact WithBot.coe_le_coe.1 h
    · intro i hij
      have hi7 : i < 7 := by omega
      have hitake : i < (L.take l₁.length).length := by
        rw [htakej]; exact hij
      have hgt := List.getElem_take L (j := l₁.length) (i := i) (h := hitake)
      have hmem' := List.getElem_mem hitake
      rw [hgt, hLget i hi7 (by omega)] at hmem'
      rw [htakej] at hmem'
      have h := hbefore _ hmem'
      rw [hpval] at h
      exact WithBot.coe_lt_coe.1 h

/-- C8: the most-profitable-day insight reports a weekday exactly when that
weekday has a strictly positive average signed profit that no other weekday
exceeds and that every lower-indexed weekday (iteration order 0=Sunday ..
6=Saturday) is strictly below — i.e. ties at the maximum are broken in
favour of the first weekday in reduction order. -/
theorem c8_most_profitable_day (entries : List Entry) (tz : Int) :
    (∀ x, mostProfitableDayIndex entries tz = some x → 0 ≤ x ∧ x < 7) ∧
    (∀ d : Nat, d < 7 →
      (mostProfitableDayIndex entries tz = some (d : Int) ↔
        0 < dayAvg entries tz d ∧
        (∀ i, i < 7 → dayAvg entries tz i ≤ dayAvg entries tz d) ∧
        (∀ i, i < d → dayAvg entries tz i < dayAvg entries tz d))) := by
  obtain ⟨j, hj7, hfold, hmax, hstrict⟩ :=
    pickFold_range7 (fun d => dayAvg entries tz d)
  have hne : ((j : Nat) : Int) ≠ -1 := by omega
  have hmi : mostProfitableDayIndex entries tz =
      (if 0 < dayAvg entries tz j then some ((j : Nat) : Int) else none) := by
    simp only [mostProfitableDayIndex]
    rw [hfold]
    dsimp only
    by_cases hpos : 0 < dayAvg entries tz j
    · have hc : (0 : WithBot ℚ) < ((dayAvg entries tz j : ℚ) : WithBot ℚ) := by
        rw [← WithBot.coe_zero]
        exact WithBot.coe_lt_coe.2 hpos
      rw [if_pos ⟨hne, hc⟩, if_pos hpos]
    · rw [if_neg, if_neg hpos]
      rintro ⟨-, hlt⟩
      rw [← WithBot.coe_zero] at hlt
      exact hpos (WithBot.coe_lt_coe.1 hlt)
  constructor
  · intro x hx
    rw [hmi] at hx
    by_cases hpos : 0 < dayAvg entries tz j
    · rw [if_pos hpos] at hx
      have := Option.some.inj hx
      omega
    · rw [if_neg hpos] at hx; cases hx
  · intro d hd7
    rw [hmi]
    constructor
    · intro hx
      by_cases hpos : 0 < dayAvg entries tz j
      · rw [if_pos hpos] at hx
        have hjd : j = d := by
          have := Option.some.inj hx
          omega
        subst hjd
        exact ⟨hpos, hmax, hstrict⟩
      · rw [if_neg hpos] at hx; cases hx
    · rintro ⟨hdpos, hdmax, hdstrict⟩
      have hjd : j = d := by
        rcases lt_trichotomy j d with h | h | h
        · exact absurd (hdstrict j h) (not_lt.2 (hmax d hd7))
        · exact h
        · exact absurd (hstrict d h) (not_lt.2 (hdmax j hj7))
      subst hjd
      rw [if_pos hdpos]

def sundayGainC8 : Entry :=
  { id := ['s'], type := EntryType.GAIN, description := [], amount := 100,
    date := "2024-01-07T12:00:00.000Z".toList,
    platform := some Platform.UBER }

def mondayGainC8 : Entry :=
  { id := ['m'], type := EntryType.GAIN, description := [], amount := 100,
    date := "2024-01-01T12:00:00.000Z".toList,
    platform := some Platform.UBER }

def entriesC8 : List Entry := [sundayGainC8, mondayGainC8]

theorem c8_parse_sunday :
    jsParseDate sundayGainC8.date = some 1704628800000 := by decide

theorem c8_parse_monday :
    jsParseDate mondayGainC8.date = some 1704110400000 := by decide

/-- C8 witness: a Sunday gain of 100 and a Monday gain of 100 tie at the
maximal positive average 100, and the insight picks Sunday (index 0), the
first weekday in reduction order. -/
theorem c8_most_profitable_day_witness :
    dayAvg entriesC8 0 0 = 100 ∧ dayAvg entriesC8 0 1 = 100 ∧
    mostProfitableDayIndex entriesC8 0 = some ((0 : Nat) : Int) := by
  have hdow0 : (getDay 1704628800000 0).toNat = 0 := by decide
  have hdow1 : (getDay 1704110400000 0).toNat = 1 := by decide
  have hkey0 : dayKeyOf 1704628800000 = "2024-01-07".toList := by decide
  have hkey1 : dayKeyOf 1704110400000 = "2024-01-01".toList := by decide
  have hne0 : sundayGainC8.date.isEmpty = false := by decide
  have hne1 : mondayGainC8.date.isEmpty = false := by decide
  have hsigned0 : entrySignedAmount sundayGainC8 = 100 := by
    simp [entrySignedAmount, sundayGainC8]
  have hsigned1 : entrySignedAmount mondayGainC8 = 100 := by
    simp [entrySignedAmount, mondayGainC8]
  have hstats :
      dayStatsOf entriesC8 0 =
        dayStatsStep 0 (dayStatsStep 0 (fun _ => 0, fun _ => []) sundayGainC8)
          mondayGainC8 := rfl
  have hav0 : dayAvg entriesC8 0 0 = 100 := by
    rw [dayAvg, hstats, dayStatsStep, dayStatsStep]
    simp [c8_parse_sunday, c8_parse_monday, hne0, hne1, hsigned0, hsigned1,
      hdow0, hdow1, hkey0, hkey1]
  have hav1 : dayAvg entriesC8 0 1 = 100 := by
    rw [dayAvg, hstats, dayStatsStep, dayStatsStep]
    simp [c8_parse_sunday, c8_parse_monday, hne0, hne1, hsigned0, hsigned1,
      hdow0, hdow1, hkey0, hkey1]
  have havz : ∀ i : Nat, i ≠ 0 → i ≠ 1 → dayAvg entriesC8 0 i = 0 := by
    intro i hi0 hi1
    rw [dayAvg, hstats, dayStatsStep, dayStatsStep]
    simp [c8_parse_sunday, c8_parse_monday, hne0, hne1, hsigned0, hsigned1,
      hdow0, hdow1, hkey0, hkey1, hi0, hi1]
  refine ⟨hav0, hav1, ?_⟩
  refine ((c8_most_profitable_day entriesC8 0).2 0 (by norm_num)).2 ?_
  refine ⟨by rw [hav0]; norm_num, ?_, fun i hi => absurd hi (Nat.not_lt_zero i)⟩
  intro i hi
  interval_cases i
  · rw [hav0]
  · rw [hav1, hav0]
  · rw [havz 2 (by omega) (by omega), hav0]; norm_num
  · rw [havz 3 (by omega) (by omega), hav0]; norm_num
  · rw [havz 4 (by omega) (by omega), hav0]; norm_num
  · rw [havz 5 (by omega) (by omega), hav0]; norm_num
  · rw [havz 6 (by omega) (by omega), hav0]; norm_num

def entryC2 : Entry :=
  { id := ['e'], type := EntryType.GAIN, description := [], amount := 1,
    date := "1969-12-31T23:30:00.000Z".toList }

def filterTodayC2 : Filter :=
  { period := Period.today, customRange := { start := [], stop := [] } }

/-- C2 counterexample: with the collections, the filter (`today`) and `now`
(the epoch instant) all fixed, changing only the host timezone offset from
UTC to UTC+1 changes the filtered entry set: an entry half an hour before
the UTC midnight falls outside the UTC "today" range but inside the UTC+1
one, so period filtering is not noninterferent in the timezone. -/
theorem c2_counterexample :
    (filteredEntriesOf [entryC2] filterTodayC2 0 0).length = 0 ∧
    (filteredEntriesOf [entryC2] filterTodayC2 0 3600000).length = 1 ∧
    filteredEntriesOf [entryC2] filterTodayC2 0 0 ≠
      filteredEntriesOf [entryC2] filterTodayC2 0 3600000 := by
  have h0 : (filteredEntriesOf [entryC2] filterTodayC2 0 0).length = 0 := by
    decide
  have h1 : (filteredEntriesOf [entryC2] filterTodayC2 0 3600000).length = 1 := by
    decide
  refine ⟨h0, h1, ?_⟩
  intro h
  rw [h, h1] at h0
  cases h0

/-- C2 (amended): the computations are deterministic functions of the
collections, the filter, `now` and the timezone offset; and for the
`custom` period (whose bounds are interpreted in UTC fields) the filtered
sets and the aggregation totals do not depend on `now` or the timezone at
all.  For the locally-anchored periods the filtered sets do depend on the
timezone offset (see the counterexample), as does the weekday grouping of
the insight. -/
theorem c2_custom_filter_tz_independent (entries : List Entry)
    (shifts : List Shift) (cr : CustomRange) (now1 tz1 now2 tz2 : Int) :
    filteredEntriesOf entries
        { period := Period.custom, customRange := cr } now1 tz1 =
      filteredEntriesOf entries
        { period := Period.custom, customRange := cr } now2 tz2 ∧
    filteredShiftsOf shifts
        { period := Period.custom, customRange := cr } now1 tz1 =
      filteredShiftsOf shifts
        { period := Period.custom, customRange := cr } now2 tz2 ∧
    statsRevenue (filteredEntriesOf entries
        { period := Period.custom, customRange := cr } now1 tz1) =
      statsRevenue (filteredEntriesOf entries
        { period := Period.custom, customRange := cr } now2 tz2) ∧
    statsProfit (filteredEntriesOf entries
        { period := Period.custom, customRange := cr } now1 tz1) =
      statsProfit (filteredEntriesOf entries
        { period := Period.custom, customRange := cr } now2 tz2) ∧
    statsTotalDurationMs (filteredShiftsOf shifts
        { period := Period.custom, customRange := cr } now1 tz1) =
      statsTotalDurationMs (filteredShiftsOf shifts
        { period := Period.custom, customRange := cr } now2 tz2) := by
  have he : filteredEntriesOf entries
      { period := Period.custom, customRange := cr } now1 tz1 =
    filteredEntriesOf entries
      { period := Period.custom, customRange := cr } now2 tz2 := by
    by_cases hc : (cr.start.isEmpty || cr.stop.isEmpty) = true
    · simp [filteredEntriesOf, hc]
    · simp [filteredEntriesOf, hc, getPeriodRange]
  have hs : filteredShiftsOf shifts
      { period := Period.custom, customRange := cr } now1 tz1 =
    filteredShiftsOf shifts
      { period := Period.custom, customRange := cr } now2 tz2 := by
    by_cases hc : (cr.start.isEmpty || cr.stop.isEmpty) = true
    · simp [filteredShiftsOf, hc]
    · simp [filteredShiftsOf, hc, getPeriodRange]
  exact ⟨he, hs, by rw [he], by rw [he], by rw [hs]⟩
